import Mathlib

/-!
Verification of the RTBKIT post-auction service (`post_auction_service.h`).

The header exposes the service façade: timeout configuration (`setWinTimeout`,
`setAuctionTimeout`, both inline in the header), asynchronous injection entry
points (`injectSubmittedAuction`, `injectWin`, `injectLoss`,
`injectCampaignEvent`) and the private single-consumer handlers (`doAuction`,
`doEvent`, `doCampaignEvent`, `checkExpiredAuctions`).  The matching engine
behind those handlers (pending-auction ledger, match state machine, timeout
sweeper, outcome router) is not part of the header; its behaviour is modelled
here from the specification of the engine, while the two timeout setters are
translated directly from the header's inline code.

Timestamps are modelled as natural numbers, identifiers as natural numbers,
and the float-valued configuration timeouts as rationals.
-/

namespace PostAuction

/-! ## Data model -/

/-- An auction identity: `(auctionId, adSpotId)`. -/
structure AuctionIdentity where
  auctionId : Nat
  adSpotId : Nat
deriving DecidableEq, Repr

/-- Snapshot of the bid response stored with a pending auction:
price, account key and bid timestamp. -/
structure BidSnapshot where
  price : Nat
  account : Nat
  bidTimestamp : Nat
deriving DecidableEq, Repr

/-- Modelled from the spec: a `PendingAuction` ledger entry (the engine's
ledger entries are not in the header).  It carries the identity, the bid
snapshot, the submission timestamp and the deadline
(= submission time + loss timeout). -/
structure PendingAuction where
  identity : AuctionIdentity
  bid : BidSnapshot
  submitTime : Nat
  deadline : Nat
deriving DecidableEq, Repr

/-- A retained matched win, against which later campaign events are matched. -/
structure WinRecord where
  identity : AuctionIdentity
  bid : BidSnapshot
  winPrice : Nat
  winTime : Nat
deriving DecidableEq, Repr

/-- Whether a loss outcome was inferred by expiry (implicit) or received as an
explicit loss notification. -/
inductive LossKind where
  | implicit
  | explicit
deriving DecidableEq, Repr

/-- An outcome record handed to the router: the closed tagged union of
matched wins, matched losses, matched campaign events, unmatched events and
errors. -/
inductive Outcome where
  | matchedWin (identity : AuctionIdentity) (bid : BidSnapshot)
      (winPrice : Nat) (resolvedAt : Nat)
  | matchedLoss (identity : AuctionIdentity) (bid : BidSnapshot)
      (kind : LossKind) (resolvedAt : Nat)
  | matchedCampaignEvent (label : String) (win : WinRecord) (eventTime : Nat)
  | unmatched (label : String) (auctionId : Nat) (adSpotId : Option Nat)
      (timestamp : Nat)
  | errorOutcome (message : String)
deriving DecidableEq, Repr

/-- A diagnostic record (counters / log records), separate from outcomes. -/
inductive Diagnostic where
  | duplicateAuction (identity : AuctionIdentity)
deriving DecidableEq, Repr

/-! ## Pending auction ledger

Modelled from the spec: the `Ledger` component behind `doAuction` /
`doEvent` / `checkExpiredAuctions` is not in the header.  It is the
authoritative store of auctions awaiting an outcome, keyed by auction
identity, with per-entry deadlines. -/

/-- Does this entry carry identity `i`? -/
def hasKey (i : AuctionIdentity) (e : PendingAuction) : Bool :=
  e.identity == i

/-- Modelled from the spec: `insert(identity, bid snapshot, deadline)` fails
(returning `none`) if an entry for the identity already exists — the original
is kept and the duplicate is discarded. -/
def Ledger.insert (l : List PendingAuction) (e : PendingAuction) :
    Option (List PendingAuction) :=
  if l.any (hasKey e.identity) then none else some (l ++ [e])

/-- Modelled from the spec: `take(identity)` atomically removes and returns
the entry if present, or signals `NotFound` (`none`). -/
def Ledger.take (l : List PendingAuction) (i : AuctionIdentity) :
    Option (PendingAuction × List PendingAuction) :=
  match l.find? (hasKey i) with
  | none => none
  | some e => some (e, l.filter (fun x => ! hasKey i x))

/-- The order in which expired entries are returned by the sweep: by deadline,
ties broken by identity (lexicographically on auction id then ad-spot id). -/
def sweepLE (a b : PendingAuction) : Prop :=
  a.deadline < b.deadline ∨
    (a.deadline = b.deadline ∧
      (a.identity.auctionId < b.identity.auctionId ∨
        (a.identity.auctionId = b.identity.auctionId ∧
          a.identity.adSpotId ≤ b.identity.adSpotId)))

instance : DecidableRel sweepLE := by
  intro a b
  unfold sweepLE
  infer_instance

instance : IsTotal PendingAuction sweepLE := by
  constructor
  intro a b
  unfold sweepLE
  omega

instance : IsTrans PendingAuction sweepLE := by
  constructor
  intro a b c
  unfold sweepLE
  omega

/-- Modelled from the spec: `sweepExpired(now)` returns and removes all
entries whose deadline ≤ `now`, in deadline order (ties broken by identity
for determinism).  Returns `(expired, remaining)`. -/
def Ledger.sweepExpired (l : List PendingAuction) (now : Nat) :
    List PendingAuction × List PendingAuction :=
  let p := l.partition (fun e => e.deadline ≤ now)
  (p.1.insertionSort sweepLE, p.2)

/-! ## Match engine

Modelled from the spec: the engine behind the private handlers `doAuction`,
`doEvent` (wins and losses), `doCampaignEvent` and `checkExpiredAuctions`
(the handler bodies are not in the header).  The engine is a single-consumer
state machine: it drains the intake queues serially, mutates the ledger and
the win history, and emits outcome records. -/

/-- The engine state: the pending-auction ledger and the win history. -/
structure MatchState where
  ledger : List PendingAuction
  winHistory : List WinRecord
deriving DecidableEq, Repr

/-- The empty engine state. -/
def initState : MatchState := ⟨[], []⟩

/-- The result of processing one event (or one sweep tick): the new state,
the outcomes handed to the router and the diagnostics recorded. -/
structure EngineResult where
  state : MatchState
  outcomes : List Outcome
  diags : List Diagnostic
deriving DecidableEq, Repr

/-- The events the single consumer dequeues, plus the sweep-timer tick.  A
submit carries the identity, the bid snapshot, the submission time and the
loss timeout; wins carry a price and a timestamp; campaign events carry a
label, an auction id, an optional ad-spot id (empty = broadcast) and a
timestamp. -/
inductive Event where
  | submit (identity : AuctionIdentity) (bid : BidSnapshot)
      (submitTime : Nat) (lossTimeout : Nat)
  | win (identity : AuctionIdentity) (winPrice : Nat) (timestamp : Nat)
  | loss (identity : AuctionIdentity) (timestamp : Nat)
  | campaignEvent (label : String) (auctionId : Nat)
      (adSpotId : Option Nat) (timestamp : Nat)
  | sweep (now : Nat)
deriving DecidableEq, Repr

/-- Modelled from the spec: `doAuction` inserts the submitted auction into the
ledger with deadline = submission time + loss timeout; a duplicate identity
leaves the ledger unchanged and records a `DuplicateAuction` diagnostic. -/
def doAuction (s : MatchState) (i : AuctionIdentity) (bid : BidSnapshot)
    (submitTime lossTimeout : Nat) : EngineResult :=
  match Ledger.insert s.ledger ⟨i, bid, submitTime, submitTime + lossTimeout⟩ with
  | none => ⟨s, [], [.duplicateAuction i]⟩
  | some l => ⟨{ s with ledger := l }, [], []⟩

/-- Modelled from the spec: a win takes the entry from the ledger; if found it
produces `MatchedWin` and inserts the win into the win history, otherwise it
produces `Unmatched`. -/
def doWin (s : MatchState) (i : AuctionIdentity) (winPrice timestamp : Nat) :
    EngineResult :=
  match Ledger.take s.ledger i with
  | some (e, rest) =>
      ⟨⟨rest, s.winHistory ++ [⟨i, e.bid, winPrice, timestamp⟩]⟩,
        [.matchedWin i e.bid winPrice timestamp], []⟩
  | none => ⟨s, [.unmatched "WIN" i.auctionId (some i.adSpotId) timestamp], []⟩

/-- Modelled from the spec: an explicit loss (simulation-only path) has the
same lookup/removal semantics as a win but produces `MatchedLoss(explicit)`
and creates no win-history entry. -/
def doLoss (s : MatchState) (i : AuctionIdentity) (timestamp : Nat) :
    EngineResult :=
  match Ledger.take s.ledger i with
  | some (e, rest) =>
      ⟨{ s with ledger := rest }, [.matchedLoss i e.bid .explicit timestamp], []⟩
  | none => ⟨s, [.unmatched "LOSS" i.auctionId (some i.adSpotId) timestamp], []⟩

/-- The win-history entries a campaign event is matched against: exactly the
given identity when the ad-spot id is non-empty, and all wins of the auction
when it is empty (broadcast policy). -/
def campaignMatches (h : List WinRecord) (auctionId : Nat)
    (adSpotId : Option Nat) : List WinRecord :=
  match adSpotId with
  | some sp => h.filter (fun w => w.identity == AuctionIdentity.mk auctionId sp)
  | none => h.filter (fun w => w.identity.auctionId == auctionId)

/-- Modelled from the spec: `doCampaignEvent` looks the event up in the win
history; each match yields a `MatchedCampaignEvent` referencing the
originating win, absence of any match yields `Unmatched`. -/
def doCampaignEvent (s : MatchState) (label : String) (auctionId : Nat)
    (adSpotId : Option Nat) (timestamp : Nat) : EngineResult :=
  let ws := campaignMatches s.winHistory auctionId adSpotId
  if ws.isEmpty then ⟨s, [.unmatched label auctionId adSpotId timestamp], []⟩
  else ⟨s, ws.map (fun w => .matchedCampaignEvent label w timestamp), []⟩

/-- Modelled from the spec: `checkExpiredAuctions` calls
`Ledger.sweepExpired(now)` and, for every returned entry, synthesizes
`MatchedLoss(implicit)` with resolution timestamp = `now`. -/
def checkExpiredAuctions (s : MatchState) (now : Nat) : EngineResult :=
  let p := Ledger.sweepExpired s.ledger now
  ⟨{ s with ledger := p.2 },
    p.1.map (fun e => .matchedLoss e.identity e.bid .implicit now), []⟩

/-- One step of the single-consumer loop, dispatching on the event kind. -/
def step (s : MatchState) : Event → EngineResult
  | .submit i bid t timeout => doAuction s i bid t timeout
  | .win i p ts => doWin s i p ts
  | .loss i ts => doLoss s i ts
  | .campaignEvent label aid spot ts => doCampaignEvent s label aid spot ts
  | .sweep now => checkExpiredAuctions s now

/-- Run the engine over a whole event history, in dequeue order, collecting
all outcomes and diagnostics. -/
def run (s : MatchState) : List Event → EngineResult
  | [] => ⟨s, [], []⟩
  | e :: es =>
    let r := step s e
    let r2 := run r.state es
    ⟨r2.state, r.outcomes ++ r2.outcomes, r.diags ++ r2.diags⟩

/-! ## Outcome router -/

/-- An outward call made by the router to an external collaborator. -/
inductive ExternalCall where
  | billing (account : Nat) (amount : Nat) (direction : String)
  | agentDeliver (account : Nat) (message : String)
deriving DecidableEq, Repr

/-- Modelled from the spec: the router calls billing and delivers to the
owning agent for matched wins and losses, delivers (without billing) for
matched campaign events, and makes no billing call and no agent delivery for
unmatched or error outcomes. -/
def route : Outcome → List ExternalCall
  | .matchedWin _ bid price _ =>
      [.billing bid.account price "win", .agentDeliver bid.account "WIN"]
  | .matchedLoss _ bid _ _ =>
      [.billing bid.account 0 "loss", .agentDeliver bid.account "LOSS"]
  | .matchedCampaignEvent label w _ => [.agentDeliver w.bid.account label]
  | .unmatched _ _ _ _ => []
  | .errorOutcome _ => []

/-- All external calls made when routing a list of outcomes. -/
def routeAll (os : List Outcome) : List ExternalCall :=
  os.flatMap route

/-! ## Service façade: timeout configuration

Translated from the inline code of `post_auction_service.h` (lines 66-80).
The float timeouts are modelled as rationals; a thrown `ML::Exception`
becomes an `Except.error` carrying the exception message. -/

/-- Modelled from the spec: the event matcher's configuration (the
`EventMatcher` behind the `matcher` member is not in the header; only its
timeout fields are relevant here). -/
structure EventMatcherConfig where
  winTimeout : ℚ
  auctionTimeout : ℚ
deriving DecidableEq, Repr

/-- `EventMatcher::setWinTimeout`: store the win timeout. -/
def EventMatcherConfig.setWinTimeout (m : EventMatcherConfig) (t : ℚ) :
    EventMatcherConfig :=
  { m with winTimeout := t }

/-- The configuration-relevant state of `PostAuctionService`: its own
`auctionTimeout` and `winTimeout` fields plus the matcher it forwards to. -/
structure PostAuctionServiceState where
  auctionTimeout : ℚ
  winTimeout : ℚ
  matcher : EventMatcherConfig
deriving DecidableEq, Repr

/-- `PostAuctionService::setWinTimeout`: throws on a negative timeout,
otherwise stores the timeout in `winTimeout` and forwards it to
`matcher.setWinTimeout`. -/
def setWinTimeout (s : PostAuctionServiceState) (timeOut : ℚ) :
    Except String PostAuctionServiceState :=
  if timeOut < 0 then .error "Invalid timeout for Win timeout"
  else .ok { s with
    winTimeout := timeOut
    matcher := s.matcher.setWinTimeout timeOut }

/-- `PostAuctionService::setAuctionTimeout`: throws on a negative timeout
(with a message naming the Win timeout), otherwise stores the timeout in
`auctionTimeout` and forwards it to `matcher.setWinTimeout`. -/
def setAuctionTimeout (s : PostAuctionServiceState) (timeOut : ℚ) :
    Except String PostAuctionServiceState :=
  if timeOut < 0 then .error "Invalid timeout for Win timeout"
  else .ok { s with
    auctionTimeout := timeOut
    matcher := s.matcher.setWinTimeout timeOut }

/-! ## Counting helpers for the settlement invariant -/

/-- Is this outcome a terminal outcome (matched win or matched loss,
explicit or implicit) for identity `i`? -/
def Outcome.terminalFor : Outcome → AuctionIdentity → Bool
  | .matchedWin j _ _ _, i => j == i
  | .matchedLoss j _ _ _, i => j == i
  | _, _ => false

/-- Number of terminal outcomes for identity `i` in a list of outcomes. -/
def terminalCount (os : List Outcome) (i : AuctionIdentity) : Nat :=
  os.countP (fun o => o.terminalFor i)

/-- Number of ledger entries for identity `i` (0 or 1 for well-formed
ledgers). -/
def pendingCount (s : MatchState) (i : AuctionIdentity) : Nat :=
  s.ledger.countP (hasKey i)

/-- Is identity `i` currently pending in the ledger? -/
def isPending (s : MatchState) (i : AuctionIdentity) : Bool :=
  s.ledger.any (hasKey i)

/-- Does event `e`, processed in state `s`, successfully submit identity `i`
(a submit for `i` that is not a duplicate)? -/
def submitOK (s : MatchState) (e : Event) (i : AuctionIdentity) : Bool :=
  match e with
  | .submit j _ _ _ => j == i && ! s.ledger.any (hasKey j)
  | _ => false

/-- Number of successful submissions of identity `i` along an event history
started in state `s`. -/
def submitCount : MatchState → List Event → AuctionIdentity → Nat
  | _, [], _ => 0
  | s, e :: es, i =>
    (if submitOK s e i then 1 else 0) + submitCount (step s e).state es i

/-- The ledger is well-formed: at most one entry per identity. -/
def goodLedger (l : List PendingAuction) : Prop :=
  (l.map PendingAuction.identity).Nodup

instance (l : List PendingAuction) : Decidable (goodLedger l) :=
  inferInstanceAs (Decidable ((l.map PendingAuction.identity).Nodup))

/-! ## List counting helpers -/

theorem hasKey_iff (i : AuctionIdentity) (e : PendingAuction) :
    hasKey i e = true ↔ e.identity = i := by
  unfold hasKey
  exact beq_iff_eq

theorem countP_split {α : Type} (p q : α → Bool) (l : List α) :
    (l.filter q).countP p + (l.filter (fun a => ! q a)).countP p
      = l.countP p := by
  induction l with
  | nil => rfl
  | cons a l ih =>
    cases hq : q a <;>
      simp [List.filter_cons, hq, List.countP_cons, ← ih] <;> omega

theorem countP_filter_zero {α : Type} (p q : α → Bool) (l : List α)
    (h : ∀ a, p a = true → q a = false) :
    (l.filter q).countP p = 0 := by
  rw [List.countP_eq_zero]
  intro a ha hpa
  rcases List.mem_filter.mp ha with ⟨_, hqa⟩
  rw [h a hpa] at hqa
  cases hqa

theorem countP_filter_keep {α : Type} (p q : α → Bool) (l : List α)
    (h : ∀ a, p a = true → q a = true) :
    (l.filter q).countP p = l.countP p := by
  induction l with
  | nil => rfl
  | cons a l ih =>
    cases hq : q a
    · have hp : p a = false := by
        cases hp : p a
        · rfl
        · rw [h a hp] at hq; cases hq
      simp [List.filter_cons, hq, List.countP_cons, hp, ih]
    · simp [List.filter_cons, hq, List.countP_cons, ih]

/-! ## Ledger well-formedness -/

theorem goodLedger_filter (l : List PendingAuction) (q : PendingAuction → Bool)
    (h : goodLedger l) : goodLedger (l.filter q) :=
  h.sublist (List.Sublist.map PendingAuction.identity (List.filter_sublist l))

theorem pendingCount_le_one (s : MatchState) (i : AuctionIdentity)
    (h : goodLedger s.ledger) : pendingCount s i ≤ 1 := by
  have h1 : pendingCount s i
      = (s.ledger.map PendingAuction.identity).countP (fun x => x == i) :=
    (List.countP_map (fun x => x == i) PendingAuction.identity s.ledger).symm
  rw [h1, ← List.count_eq_countP]
  exact List.nodup_iff_count_le_one.mp h i

theorem pendingCount_pos_of_found (s : MatchState) (i : AuctionIdentity)
    (e : PendingAuction) (h : s.ledger.find? (hasKey i) = some e) :
    1 ≤ pendingCount s i := by
  apply List.countP_pos_iff.mpr
  exact ⟨e, List.mem_of_find?_eq_some h, List.find?_some h⟩

theorem goodLedger_append_fresh (l : List PendingAuction) (e : PendingAuction)
    (h : goodLedger l) (ha : l.any (hasKey e.identity) = false) :
    goodLedger (l ++ [e]) := by
  unfold goodLedger
  rw [List.map_append, List.nodup_append]
  refine ⟨h, List.nodup_singleton e.identity, ?_⟩
  intro a hmem hsing
  rcases List.mem_map.mp hmem with ⟨x, hx, hxa⟩
  rcases List.mem_singleton.mp hsing
  have : l.any (hasKey e.identity) = true :=
    List.any_eq_true.mpr ⟨x, hx, (hasKey_iff e.identity x).mpr hxa⟩
  rw [ha] at this
  cases this

theorem goodLedger_step (s : MatchState) (e : Event) (h : goodLedger s.ledger) :
    goodLedger (step s e).state.ledger := by
  cases e with
  | submit i bid t timeout =>
    simp only [step, doAuction, Ledger.insert]
    cases ha : s.ledger.any (hasKey i)
    · simp only [ha, Bool.false_eq_true, if_false]
      exact goodLedger_append_fresh s.ledger _ h ha
    · simp only [ha, if_true]
      exact h
  | win i p ts =>
    simp only [step]
    cases hfind : s.ledger.find? (hasKey i) with
    | none => simp only [doWin, Ledger.take, hfind]; exact h
    | some e =>
      simp only [doWin, Ledger.take, hfind]
      exact goodLedger_filter _ _ h
  | loss i ts =>
    simp only [step]
    cases hfind : s.ledger.find? (hasKey i) with
    | none => simp only [doLoss, Ledger.take, hfind]; exact h
    | some e =>
      simp only [doLoss, Ledger.take, hfind]
      exact goodLedger_filter _ _ h
  | campaignEvent label aid spot ts =>
    simp only [step, doCampaignEvent]
    split <;> exact h
  | sweep now =>
    simp only [step, checkExpiredAuctions, Ledger.sweepExpired,
      List.partition_eq_filter_filter]
    exact goodLedger_filter _ _ h

/-! ## The settlement conservation law

Every step preserves the sum of terminal outcomes already emitted and
entries still pending: it grows by one exactly on a successful submission. -/

theorem step_conservation (s : MatchState) (e : Event) (i : AuctionIdentity)
    (h : goodLedger s.ledger) :
    terminalCount (step s e).outcomes i + pendingCount (step s e).state i
      = pendingCount s i + (if submitOK s e i then 1 else 0) := by
  cases e with
  | submit j bid t timeout =>
    simp only [step, doAuction, Ledger.insert, submitOK]
    by_cases ha : s.ledger.any (hasKey j) = true
    · rw [if_pos ha]
      have ha2 : (j == i && ! s.ledger.any (hasKey j)) = false := by
        rw [ha]
        simp
      simp [terminalCount, pendingCount, ha2]
    · rw [if_neg ha]
      have ha2 : s.ledger.any (hasKey j) = false := by
        cases hx : s.ledger.any (hasKey j)
        · rfl
        · exact absurd hx ha
      simp only [terminalCount, pendingCount, List.countP_nil,
        List.countP_append, List.countP_cons, ha2]
      by_cases hj : j = i
      · subst hj
        simp [hasKey]
      · simp [hasKey, hj]
  | win j p ts =>
    simp only [step]
    cases hfind : s.ledger.find? (hasKey j) with
    | none =>
      simp only [doWin, Ledger.take, hfind]
      simp [terminalCount, pendingCount, submitOK, Outcome.terminalFor,
        List.countP_cons]
    | some e =>
      simp only [doWin, Ledger.take, hfind]
      by_cases hij : j = i
      · subst hij
        have hle := pendingCount_le_one s j h
        have hge := pendingCount_pos_of_found s j e hfind
        have h0 : (s.ledger.filter (fun x => ! hasKey j x)).countP (hasKey j)
            = 0 := by
          apply countP_filter_zero
          intro a hp
          rw [hp]
          rfl
        simp only [terminalCount, pendingCount, submitOK, Outcome.terminalFor,
          List.countP_cons, List.countP_nil] at *
        simp [h0]
        omega
      · have hkeep : (s.ledger.filter (fun x => ! hasKey j x)).countP (hasKey i)
            = s.ledger.countP (hasKey i) := by
          apply countP_filter_keep
          intro a hp
          have : a.identity = i := (hasKey_iff i a).mp hp
          have : hasKey j a = false := by
            cases hk : hasKey j a
            · rfl
            · exact absurd (((hasKey_iff j a).mp hk).symm.trans this) hij
          rw [this]
          rfl
        have hji : (j == i) = false := by
          cases hk : j == i
          · rfl
          · exact absurd (beq_iff_eq.mp hk) hij
        simp [terminalCount, pendingCount, submitOK, Outcome.terminalFor,
          List.countP_cons, hkeep, hji]
  | loss j ts =>
    simp only [step]
    cases hfind : s.ledger.find? (hasKey j) with
    | none =>
      simp only [doLoss, Ledger.take, hfind]
      simp [terminalCount, pendingCount, submitOK, Outcome.terminalFor,
        List.countP_cons]
    | some e =>
      simp only [doLoss, Ledger.take, hfind]
      by_cases hij : j = i
      · subst hij
        have hle := pendingCount_le_one s j h
        have hge := pendingCount_pos_of_found s j e hfind
        have h0 : (s.ledger.filter (fun x => ! hasKey j x)).countP (hasKey j)
            = 0 := by
          apply countP_filter_zero
          intro a hp
          rw [hp]
          rfl
        simp only [terminalCount, pendingCount, submitOK, Outcome.terminalFor,
          List.countP_cons, List.countP_nil] at *
        simp [h0]
        omega
      · have hkeep : (s.ledger.filter (fun x => ! hasKey j x)).countP (hasKey i)
            = s.ledger.countP (hasKey i) := by
          apply countP_filter_keep
          intro a hp
          have : a.identity = i := (hasKey_iff i a).mp hp
          have : hasKey j a = false := by
            cases hk : hasKey j a
            · rfl
            · exact absurd (((hasKey_iff j a).mp hk).symm.trans this) hij
          rw [this]
          rfl
        have hji : (j == i) = false := by
          cases hk : j == i
          · rfl
          · exact absurd (beq_iff_eq.mp hk) hij
        simp [terminalCount, pendingCount, submitOK, Outcome.terminalFor,
          List.countP_cons, hkeep, hji]
  | campaignEvent label aid spot ts =>
    simp only [step, doCampaignEvent]
    split
    · simp [terminalCount, pendingCount, submitOK, Outcome.terminalFor,
        List.countP_cons]
    · simp only [terminalCount, pendingCount, submitOK, List.countP_map]
      simp [Outcome.terminalFor, Function.comp]
  | sweep now =>
    simp only [step, checkExpiredAuctions, Ledger.sweepExpired,
      List.partition_eq_filter_filter]
    have h1 : terminalCount
        ((List.insertionSort sweepLE
            (s.ledger.filter (fun e => decide (e.deadline ≤ now)))).map
          (fun e => Outcome.matchedLoss e.identity e.bid .implicit now)) i
        = (s.ledger.filter (fun e => decide (e.deadline ≤ now))).countP
            (hasKey i) := by
      unfold terminalCount
      rw [List.countP_map]
      exact (List.perm_insertionSort sweepLE _).countP_eq _
    simp only [submitOK, Bool.false_eq_true, if_false]
    simp only [pendingCount]
    rw [h1]
    have hsplit : (s.ledger.filter (fun e => decide (e.deadline ≤ now))).countP
            (hasKey i)
          + (s.ledger.filter
              (not ∘ fun e => decide (e.deadline ≤ now))).countP (hasKey i)
        = s.ledger.countP (hasKey i) :=
      countP_split (hasKey i) (fun e => decide (e.deadline ≤ now)) s.ledger
    omega

theorem run_conservation (es : List Event) :
    ∀ (s : MatchState) (i : AuctionIdentity), goodLedger s.ledger →
      terminalCount (run s es).outcomes i + pendingCount (run s es).state i
        = pendingCount s i + submitCount s es i := by
  induction es with
  | nil =>
    intro s i _
    simp [run, terminalCount, submitCount]
  | cons e es ih =>
    intro s i h
    have hstep := step_conservation s e i h
    have hrec := ih (step s e).state i (goodLedger_step s e h)
    simp only [run, submitCount, terminalCount, List.countP_append]
    simp only [terminalCount] at hstep hrec
    by_cases hok : submitOK s e i = true
    · simp only [hok, if_true] at hstep ⊢
      omega
    · simp only [hok, if_false] at hstep ⊢
      omega

theorem isPending_false_iff_pendingCount_zero (s : MatchState)
    (i : AuctionIdentity) : isPending s i = false ↔ pendingCount s i = 0 := by
  unfold isPending pendingCount
  constructor
  · intro h
    rw [List.countP_eq_zero]
    intro a ha hk
    have : s.ledger.any (hasKey i) = true := List.any_eq_true.mpr ⟨a, ha, hk⟩
    rw [h] at this
    cases this
  · intro h
    cases hx : s.ledger.any (hasKey i)
    · rfl
    · rcases List.any_eq_true.mp hx with ⟨a, ha, hk⟩
      have := List.countP_eq_zero.mp h a ha
      exact absurd hk this

/-- C1: for every auction successfully submitted (exactly one successful
submission of its identity in the whole event history, starting from the
empty engine state), at most one terminal outcome (`MatchedWin` or
`MatchedLoss`, explicit or implicit) is ever produced for that identity; and
once the identity is no longer pending in the ledger (which expiry
guarantees), exactly one terminal outcome has been produced — never zero and
never more than one, regardless of out-of-order, duplicate, or missing
notifications. -/
theorem exactly_once_settlement (es : List Event) (i : AuctionIdentity)
    (h : submitCount initState es i = 1) :
    terminalCount (run initState es).outcomes i ≤ 1 ∧
      (isPending (run initState es).state i = false →
        terminalCount (run initState es).outcomes i = 1) := by
  have hcons := run_conservation es initState i (by simp [initState, goodLedger])
  rw [h] at hcons
  have h0 : pendingCount initState i = 0 := by simp [initState, pendingCount]
  rw [h0] at hcons
  constructor
  · omega
  · intro hp
    have := (isPending_false_iff_pendingCount_zero _ i).mp hp
    omega

/-- Witness for C1: a concrete history with one successful submission and an
expiring sweep settles the auction exactly once. -/
theorem exactly_once_settlement_witness :
    submitCount initState
        [Event.submit ⟨1, 1⟩ ⟨10, 2, 0⟩ 0 5, Event.sweep 10] ⟨1, 1⟩ = 1 ∧
      (terminalCount
          (run initState
            [Event.submit ⟨1, 1⟩ ⟨10, 2, 0⟩ 0 5, Event.sweep 10]).outcomes
          ⟨1, 1⟩ ≤ 1 ∧
        (isPending
            (run initState
              [Event.submit ⟨1, 1⟩ ⟨10, 2, 0⟩ 0 5, Event.sweep 10]).state
            ⟨1, 1⟩ = false →
          terminalCount
            (run initState
              [Event.submit ⟨1, 1⟩ ⟨10, 2, 0⟩ 0 5, Event.sweep 10]).outcomes
            ⟨1, 1⟩ = 1)) :=
  ⟨by decide,
    exactly_once_settlement [Event.submit ⟨1, 1⟩ ⟨10, 2, 0⟩ 0 5, Event.sweep 10]
      ⟨1, 1⟩ (by decide)⟩

theorem any_filter_not (l : List PendingAuction) (i : AuctionIdentity) :
    (l.filter (fun x => ! hasKey i x)).any (hasKey i) = false := by
  cases hx : (l.filter (fun x => ! hasKey i x)).any (hasKey i)
  · rfl
  · rcases List.any_eq_true.mp hx with ⟨a, ha, hk⟩
    rcases List.mem_filter.mp ha with ⟨_, hna⟩
    rw [hk] at hna
    cases hna

/-- C2: a second `submitAuction` for an identity that is still pending leaves
the engine state (and so the original ledger entry, its bid snapshot and its
deadline) completely unchanged, produces no outcome, and raises exactly one
`DuplicateAuction` diagnostic: the duplicate never overwrites the in-flight
bid. -/
theorem duplicate_submit_discarded (s : MatchState) (i : AuctionIdentity)
    (bid : BidSnapshot) (t timeout : Nat)
    (h : isPending s i = true) :
    step s (.submit i bid t timeout) = ⟨s, [], [.duplicateAuction i]⟩ := by
  have h2 : s.ledger.any (hasKey i) = true := h
  simp [step, doAuction, Ledger.insert, h2]

/-- Witness for C2: a duplicate submission against a concrete pending entry
is discarded with a `DuplicateAuction` diagnostic. -/
theorem duplicate_submit_discarded_witness :
    isPending ⟨[⟨⟨1, 1⟩, ⟨10, 2, 0⟩, 0, 5⟩], []⟩ ⟨1, 1⟩ = true ∧
      step (⟨[⟨⟨1, 1⟩, ⟨10, 2, 0⟩, 0, 5⟩], []⟩ : MatchState)
          (.submit ⟨1, 1⟩ ⟨99, 3, 1⟩ 1 7)
        = ⟨⟨[⟨⟨1, 1⟩, ⟨10, 2, 0⟩, 0, 5⟩], []⟩, [],
            [.duplicateAuction ⟨1, 1⟩]⟩ :=
  ⟨by decide,
    duplicate_submit_discarded ⟨[⟨⟨1, 1⟩, ⟨10, 2, 0⟩, 0, 5⟩], []⟩ ⟨1, 1⟩
      ⟨99, 3, 1⟩ 1 7 (by decide)⟩

/-- C5: a win processed while its identity is still pending in the ledger
(and arriving strictly before the entry's deadline) removes the entry,
produces exactly `MatchedWin` (never `Unmatched`), and inserts the win into
the win history. -/
theorem win_while_pending_matched (s : MatchState) (i : AuctionIdentity)
    (e : PendingAuction) (rest : List PendingAuction) (winPrice ts : Nat)
    (htake : Ledger.take s.ledger i = some (e, rest))
    (hts : ts < e.deadline) :
    (step s (.win i winPrice ts)).outcomes
        = [.matchedWin i e.bid winPrice ts] ∧
      isPending (step s (.win i winPrice ts)).state i = false ∧
      (step s (.win i winPrice ts)).state.winHistory
        = s.winHistory ++ [⟨i, e.bid, winPrice, ts⟩] := by
  cases hfind : s.ledger.find? (hasKey i) with
  | none =>
    rw [Ledger.take, hfind] at htake
    cases htake
  | some e2 =>
    rw [Ledger.take, hfind] at htake
    injection htake with htake
    have he : e2 = e := congrArg Prod.fst htake
    subst he
    refine ⟨?_, ?_, ?_⟩ <;> simp [step, doWin, Ledger.take, hfind, isPending,
      any_filter_not]

/-- Witness for C5: a concrete pending auction matched by a win before its
deadline. -/
theorem win_while_pending_matched_witness :
    Ledger.take [⟨⟨1, 1⟩, ⟨10, 2, 0⟩, 0, 5⟩] ⟨1, 1⟩
        = some (⟨⟨1, 1⟩, ⟨10, 2, 0⟩, 0, 5⟩, []) ∧
      (3 : Nat) < 5 ∧
      ((step (⟨[⟨⟨1, 1⟩, ⟨10, 2, 0⟩, 0, 5⟩], []⟩ : MatchState)
            (.win ⟨1, 1⟩ 12 3)).outcomes
          = [.matchedWin ⟨1, 1⟩ ⟨10, 2, 0⟩ 12 3] ∧
        isPending (step (⟨[⟨⟨1, 1⟩, ⟨10, 2, 0⟩, 0, 5⟩], []⟩ : MatchState)
            (.win ⟨1, 1⟩ 12 3)).state ⟨1, 1⟩ = false ∧
        (step (⟨[⟨⟨1, 1⟩, ⟨10, 2, 0⟩, 0, 5⟩], []⟩ : MatchState)
            (.win ⟨1, 1⟩ 12 3)).state.winHistory
          = [] ++ [⟨⟨1, 1⟩, ⟨10, 2, 0⟩, 12, 3⟩]) :=
  ⟨by decide, by decide,
    win_while_pending_matched ⟨[⟨⟨1, 1⟩, ⟨10, 2, 0⟩, 0, 5⟩], []⟩ ⟨1, 1⟩
      ⟨⟨1, 1⟩, ⟨10, 2, 0⟩, 0, 5⟩ [] 12 3 (by decide) (by decide)⟩

theorem find?_none_of_not_pending (s : MatchState) (i : AuctionIdentity)
    (h : isPending s i = false) : s.ledger.find? (hasKey i) = none := by
  rw [List.find?_eq_none]
  intro a ha hk
  have h2 : isPending s i = true := List.any_eq_true.mpr ⟨a, ha, hk⟩
  rw [h] at h2
  cases h2

theorem doWin_not_pending (s : MatchState) (i : AuctionIdentity)
    (winPrice ts : Nat) (h : isPending s i = false) :
    step s (.win i winPrice ts)
      = ⟨s, [.unmatched "WIN" i.auctionId (some i.adSpotId) ts], []⟩ := by
  have hfind := find?_none_of_not_pending s i h
  simp [step, doWin, Ledger.take, hfind]

/-- C6: a win for an identity that is not in the ledger (already resolved or
never submitted) produces `Unmatched`, the router makes no billing call and
no agent delivery for it, and the engine state is unchanged — double
settlement never occurs. -/
theorem unknown_win_unmatched (s : MatchState) (i : AuctionIdentity)
    (winPrice ts : Nat) (h : isPending s i = false) :
    (step s (.win i winPrice ts)).outcomes
        = [.unmatched "WIN" i.auctionId (some i.adSpotId) ts] ∧
      routeAll (step s (.win i winPrice ts)).outcomes = [] ∧
      (step s (.win i winPrice ts)).state = s := by
  have heq := doWin_not_pending s i winPrice ts h
  refine ⟨?_, ?_, ?_⟩ <;> simp [heq, routeAll, route]

/-- Witness for C6: a win for a never-submitted identity yields `Unmatched`
with no external calls. -/
theorem unknown_win_unmatched_witness :
    isPending initState ⟨9, 1⟩ = false ∧
      ((step initState (.win ⟨9, 1⟩ 12 3)).outcomes
          = [.unmatched "WIN" 9 (some 1) 3] ∧
        routeAll (step initState (.win ⟨9, 1⟩ 12 3)).outcomes = [] ∧
        (step initState (.win ⟨9, 1⟩ 12 3)).state = initState) :=
  ⟨by decide, unknown_win_unmatched initState ⟨9, 1⟩ 12 3 (by decide)⟩

/-- C8: for every ledger and every time `now`, `sweepExpired` returns exactly
the entries whose deadline ≤ `now` (as a permutation, and exactly as a set),
sorted by deadline with ties broken by identity, and the remaining ledger is
exactly the entries with deadline > `now`, untouched and in their original
order. -/
theorem sweepExpired_exact (l : List PendingAuction) (now : Nat) :
    (Ledger.sweepExpired l now).1.Perm
        (l.filter (fun e => decide (e.deadline ≤ now))) ∧
      List.Sorted sweepLE (Ledger.sweepExpired l now).1 ∧
      (Ledger.sweepExpired l now).2
        = l.filter (fun e => decide (now < e.deadline)) ∧
      (∀ e, e ∈ (Ledger.sweepExpired l now).1 ↔ e ∈ l ∧ e.deadline ≤ now) ∧
      (∀ e, e ∈ (Ledger.sweepExpired l now).2 ↔ e ∈ l ∧ now < e.deadline) := by
  have hperm : (Ledger.sweepExpired l now).1.Perm
      (l.filter (fun e => decide (e.deadline ≤ now))) := by
    simp only [Ledger.sweepExpired, List.partition_eq_filter_filter]
    exact List.perm_insertionSort sweepLE _
  have hrem : (Ledger.sweepExpired l now).2
      = l.filter (fun e => decide (now < e.deadline)) := by
    simp only [Ledger.sweepExpired, List.partition_eq_filter_filter]
    apply List.filter_congr
    intro a _
    by_cases hd : a.deadline ≤ now
    · simp [hd, Nat.not_lt.mpr hd]
    · simp [hd, Nat.lt_of_not_le hd]
  refine ⟨hperm, ?_, hrem, ?_, ?_⟩
  · simp only [Ledger.sweepExpired, List.partition_eq_filter_filter]
    exact List.sorted_insertionSort sweepLE _
  · intro e
    rw [hperm.mem_iff, List.mem_filter]
    simp
  · intro e
    rw [hrem, List.mem_filter]
    simp

/-- C9: a negative timeout makes both `setWinTimeout` and
`setAuctionTimeout` fail at configuration time with an exception, producing
no updated service state at all: neither the service's stored timeout fields
nor the matcher's configuration are modified. -/
theorem negative_timeout_rejected (s : PostAuctionServiceState) (t : ℚ)
    (h : t < 0) :
    setWinTimeout s t = .error "Invalid timeout for Win timeout" ∧
      setAuctionTimeout s t = .error "Invalid timeout for Win timeout" ∧
      (∀ s2, setWinTimeout s t ≠ .ok s2) ∧
      (∀ s2, setAuctionTimeout s t ≠ .ok s2) := by
  have h1 : setWinTimeout s t = .error "Invalid timeout for Win timeout" := by
    simp [setWinTimeout, h]
  have h2 : setAuctionTimeout s t
      = .error "Invalid timeout for Win timeout" := by
    simp [setAuctionTimeout, h]
  refine ⟨h1, h2, ?_, ?_⟩
  · intro s2 hc
    rw [h1] at hc
    exact Except.noConfusion hc
  · intro s2 hc
    rw [h2] at hc
    exact Except.noConfusion hc

/-- Witness for C9: the timeout `-1` is rejected by both setters. -/
theorem negative_timeout_rejected_witness :
    (-1 : ℚ) < 0 ∧
      (setWinTimeout ⟨0, 0, ⟨0, 0⟩⟩ (-1)
          = .error "Invalid timeout for Win timeout" ∧
        setAuctionTimeout ⟨0, 0, ⟨0, 0⟩⟩ (-1)
          = .error "Invalid timeout for Win timeout" ∧
        (∀ s2, setWinTimeout ⟨0, 0, ⟨0, 0⟩⟩ (-1) ≠ .ok s2) ∧
        (∀ s2, setAuctionTimeout ⟨0, 0, ⟨0, 0⟩⟩ (-1) ≠ .ok s2)) :=
  ⟨by norm_num, negative_timeout_rejected ⟨0, 0, ⟨0, 0⟩⟩ (-1) (by norm_num)⟩

/-- C10: for a non-negative timeout `t`, `setAuctionTimeout` stores `t` in
the service's `auctionTimeout` field but forwards `t` to the matcher's *win*
timeout (`matcher.setWinTimeout`), leaving the matcher's auction timeout and
the service's `winTimeout` unchanged; and its error message for a negative
timeout also names the Win timeout. -/
theorem setAuctionTimeout_forwards_win (s : PostAuctionServiceState) (t : ℚ)
    (h : 0 ≤ t) :
    setAuctionTimeout s t
        = .ok { s with
            auctionTimeout := t
            matcher := s.matcher.setWinTimeout t } ∧
      (∀ s2, setAuctionTimeout s t = .ok s2 →
        s2.auctionTimeout = t ∧ s2.matcher.winTimeout = t ∧
          s2.matcher.auctionTimeout = s.matcher.auctionTimeout ∧
          s2.winTimeout = s.winTimeout) ∧
      (∀ u : ℚ, u < 0 →
        setAuctionTimeout s u = .error "Invalid timeout for Win timeout") := by
  have hnn : ¬ t < 0 := not_lt.mpr h
  refine ⟨by simp [setAuctionTimeout, hnn], ?_, ?_⟩
  · intro s2 hs2
    simp only [setAuctionTimeout, hnn, if_false, Except.ok.injEq] at hs2
    rw [← hs2]
    simp [EventMatcherConfig.setWinTimeout]
  · intro u hu
    simp [setAuctionTimeout, hu]

/-- Witness for C10: applying `setAuctionTimeout 3` to a concrete service
state updates `auctionTimeout` and the matcher's win timeout only. -/
theorem setAuctionTimeout_forwards_win_witness :
    (0 : ℚ) ≤ 3 ∧
      (setAuctionTimeout ⟨1, 2, ⟨5, 6⟩⟩ 3
          = .ok { auctionTimeout := 3
                  winTimeout := 2
                  matcher := ⟨3, 6⟩ } ∧
        (∀ s2, setAuctionTimeout ⟨1, 2, ⟨5, 6⟩⟩ 3 = .ok s2 →
          s2.auctionTimeout = 3 ∧ s2.matcher.winTimeout = 3 ∧
            s2.matcher.auctionTimeout = 6 ∧ s2.winTimeout = 2) ∧
        (∀ u : ℚ, u < 0 →
          setAuctionTimeout ⟨1, 2, ⟨5, 6⟩⟩ u
            = .error "Invalid timeout for Win timeout")) :=
  ⟨by norm_num, setAuctionTimeout_forwards_win ⟨1, 2, ⟨5, 6⟩⟩ 3 (by norm_num)⟩

theorem isPending_after_sweep (s : MatchState) (now : Nat)
    (i : AuctionIdentity)
    (h : ∀ a ∈ s.ledger, a.identity = i → a.deadline ≤ now) :
    isPending (checkExpiredAuctions s now).state i = false := by
  simp only [checkExpiredAuctions, Ledger.sweepExpired,
    List.partition_eq_filter_filter]
  unfold isPending
  rw [List.any_eq_false]
  intro a ha hk
  rcases List.mem_filter.mp ha with ⟨hmem, hq⟩
  have hd : now < a.deadline := by
    by_cases hdle : a.deadline ≤ now
    · simp [Function.comp, hdle] at hq
    · exact Nat.lt_of_not_le hdle
  have := h a hmem ((hasKey_iff i a).mp hk)
  omega

/-- C4: a win processed after the sweeper has already removed that identity's
ledger entry produces `Unmatched` — never `MatchedWin` (zero terminal
outcomes for the identity) — even when the win's own timestamp predates the
entry's deadline: processing order, not event timestamp order, decides the
outcome. -/
theorem win_after_sweep_unmatched (s : MatchState) (i : AuctionIdentity)
    (e : PendingAuction) (now winPrice winTs : Nat)
    (hgood : goodLedger s.ledger) (hmem : e ∈ s.ledger)
    (hid : e.identity = i) (hexp : e.deadline ≤ now)
    (_hts : winTs < e.deadline) :
    isPending (checkExpiredAuctions s now).state i = false ∧
      (step (checkExpiredAuctions s now).state
          (.win i winPrice winTs)).outcomes
        = [.unmatched "WIN" i.auctionId (some i.adSpotId) winTs] ∧
      terminalCount
        (step (checkExpiredAuctions s now).state
          (.win i winPrice winTs)).outcomes i = 0 := by
  have hall : ∀ a ∈ s.ledger, a.identity = i → a.deadline ≤ now := by
    intro a ha hai
    have : a = e :=
      List.inj_on_of_nodup_map hgood ha hmem (hai.trans hid.symm)
    rw [this]
    exact hexp
  have hnp := isPending_after_sweep s now i hall
  have heq := doWin_not_pending (checkExpiredAuctions s now).state i
    winPrice winTs hnp
  refine ⟨hnp, ?_, ?_⟩ <;>
    simp [heq, terminalCount, Outcome.terminalFor, List.countP_cons]

/-- Witness for C4: a win dequeued after the sweep that expired its entry is
unmatched even though its timestamp (3) predates the deadline (5). -/
theorem win_after_sweep_unmatched_witness :
    goodLedger [⟨⟨1, 1⟩, ⟨10, 2, 0⟩, 0, 5⟩] ∧
      (⟨⟨1, 1⟩, ⟨10, 2, 0⟩, 0, 5⟩ : PendingAuction)
        ∈ [⟨⟨1, 1⟩, ⟨10, 2, 0⟩, 0, 5⟩] ∧
      (⟨⟨1, 1⟩, ⟨10, 2, 0⟩, 0, 5⟩ : PendingAuction).identity = ⟨1, 1⟩ ∧
      (⟨⟨1, 1⟩, ⟨10, 2, 0⟩, 0, 5⟩ : PendingAuction).deadline ≤ 10 ∧
      (3 : Nat) < (⟨⟨1, 1⟩, ⟨10, 2, 0⟩, 0, 5⟩ : PendingAuction).deadline ∧
      (isPending
          (checkExpiredAuctions ⟨[⟨⟨1, 1⟩, ⟨10, 2, 0⟩, 0, 5⟩], []⟩ 10).state
          ⟨1, 1⟩ = false ∧
        (step (checkExpiredAuctions
              ⟨[⟨⟨1, 1⟩, ⟨10, 2, 0⟩, 0, 5⟩], []⟩ 10).state
            (.win ⟨1, 1⟩ 12 3)).outcomes
          = [.unmatched "WIN" 1 (some 1) 3] ∧
        terminalCount
          (step (checkExpiredAuctions
              ⟨[⟨⟨1, 1⟩, ⟨10, 2, 0⟩, 0, 5⟩], []⟩ 10).state
            (.win ⟨1, 1⟩ 12 3)).outcomes ⟨1, 1⟩ = 0) :=
  ⟨by decide, by decide, by decide, by decide, by decide,
    win_after_sweep_unmatched ⟨[⟨⟨1, 1⟩, ⟨10, 2, 0⟩, 0, 5⟩], []⟩ ⟨1, 1⟩
      ⟨⟨1, 1⟩, ⟨10, 2, 0⟩, 0, 5⟩ 10 12 3 (by decide) (by decide) (by decide)
      (by decide) (by decide)⟩

/-- C7: a campaign event with empty ad-spot id is matched against all
win-history entries of its auction id (broadcast): with N such wins it
produces exactly N `MatchedCampaignEvent` outcomes, each referencing one of
those wins; a non-empty ad-spot id looks up exactly that identity; and when
no win matches the event produces `Unmatched`. -/
theorem campaign_event_matching (s : MatchState) (label : String) (aid : Nat)
    (spot : Option Nat) (ts : Nat) :
    (∀ w, w ∈ campaignMatches s.winHistory aid none
        ↔ w ∈ s.winHistory ∧ w.identity.auctionId = aid) ∧
      (∀ sp w, w ∈ campaignMatches s.winHistory aid (some sp)
        ↔ w ∈ s.winHistory ∧ w.identity = ⟨aid, sp⟩) ∧
      (campaignMatches s.winHistory aid spot ≠ [] →
        (doCampaignEvent s label aid spot ts).outcomes
            = (campaignMatches s.winHistory aid spot).map
                (fun w => .matchedCampaignEvent label w ts) ∧
          (doCampaignEvent s label aid spot ts).outcomes.length
            = (campaignMatches s.winHistory aid spot).length ∧
          ∀ o ∈ (doCampaignEvent s label aid spot ts).outcomes,
            ∃ w, w ∈ campaignMatches s.winHistory aid spot ∧
              o = .matchedCampaignEvent label w ts) ∧
      (campaignMatches s.winHistory aid spot = [] →
        (doCampaignEvent s label aid spot ts).outcomes
          = [.unmatched label aid spot ts]) := by
  refine ⟨?_, ?_, ?_, ?_⟩
  · intro w
    simp [campaignMatches, List.mem_filter]
  · intro sp w
    simp [campaignMatches, List.mem_filter]
  · intro hne
    have hie : (campaignMatches s.winHistory aid spot).isEmpty = false := by
      cases hl : campaignMatches s.winHistory aid spot
      · exact absurd hl hne
      · rfl
    refine ⟨?_, ?_, ?_⟩ <;>
      simp [doCampaignEvent, hie, List.length_map, List.mem_map]
  · intro hnil
    simp [doCampaignEvent, hnil]

/-- Witness for C7: a broadcast campaign event against two retained wins on
auction 1 yields exactly two matched campaign events referencing them. -/
theorem campaign_event_matching_witness :
    campaignMatches [⟨⟨1, 1⟩, ⟨10, 2, 0⟩, 12, 3⟩, ⟨⟨1, 2⟩, ⟨11, 2, 0⟩, 13, 4⟩]
        1 none ≠ [] ∧
      (doCampaignEvent
          ⟨[], [⟨⟨1, 1⟩, ⟨10, 2, 0⟩, 12, 3⟩, ⟨⟨1, 2⟩, ⟨11, 2, 0⟩, 13, 4⟩]⟩
          "CLICK" 1 none 9).outcomes
        = (campaignMatches
            [⟨⟨1, 1⟩, ⟨10, 2, 0⟩, 12, 3⟩, ⟨⟨1, 2⟩, ⟨11, 2, 0⟩, 13, 4⟩]
            1 none).map (fun w => .matchedCampaignEvent "CLICK" w 9) ∧
      (doCampaignEvent
          ⟨[], [⟨⟨1, 1⟩, ⟨10, 2, 0⟩, 12, 3⟩, ⟨⟨1, 2⟩, ⟨11, 2, 0⟩, 13, 4⟩]⟩
          "CLICK" 1 none 9).outcomes.length
        = (campaignMatches
            [⟨⟨1, 1⟩, ⟨10, 2, 0⟩, 12, 3⟩, ⟨⟨1, 2⟩, ⟨11, 2, 0⟩, 13, 4⟩]
            1 none).length :=
  ⟨by decide,
    ((campaign_event_matching
        ⟨[], [⟨⟨1, 1⟩, ⟨10, 2, 0⟩, 12, 3⟩, ⟨⟨1, 2⟩, ⟨11, 2, 0⟩, 13, 4⟩]⟩
        "CLICK" 1 none 9).2.2.1 (by decide)).1,
    ((campaign_event_matching
        ⟨[], [⟨⟨1, 1⟩, ⟨10, 2, 0⟩, 12, 3⟩, ⟨⟨1, 2⟩, ⟨11, 2, 0⟩, 13, 4⟩]⟩
        "CLICK" 1 none 9).2.2.1 (by decide)).2.1⟩

theorem sweep_outcomes_filter (l : List PendingAuction)
    (wh : List WinRecord) (now : Nat) (i : AuctionIdentity) :
    ((checkExpiredAuctions ⟨l, wh⟩ now).outcomes.filter
        (fun o => o.terminalFor i)).Perm
      ((l.filter
          (fun e => hasKey i e && decide (e.deadline ≤ now))).map
        (fun e => Outcome.matchedLoss e.identity e.bid .implicit now)) := by
  simp only [checkExpiredAuctions, Ledger.sweepExpired,
    List.partition_eq_filter_filter]
  rw [List.filter_map]
  refine List.Perm.map _ ?_
  refine ((List.perm_insertionSort sweepLE _).filter _).trans ?_
  rw [List.filter_filter]
  exact List.Perm.refl _

/-- C3: an auction submitted at time `T` with loss timeout `lossT` that
receives no win or loss, with one sweep strictly before the deadline at `t1`
and the next sweep at `t1 + delta` at or after the deadline, is resolved as
`MatchedLoss(implicit)` exactly once (exactly one terminal outcome for its
identity over the whole history), with resolution timestamp equal to the
resolving sweep's `now = t1 + delta`, which lies at or after `T + lossT` and
strictly before `T + lossT + delta`. -/
theorem implicit_loss_exact_window (s : MatchState) (i : AuctionIdentity)
    (bid : BidSnapshot) (T lossT t1 delta : Nat)
    (hnp : isPending s i = false)
    (h1 : t1 < T + lossT)
    (h2 : T + lossT ≤ t1 + delta) :
    ((run s [.submit i bid T lossT, .sweep t1,
          .sweep (t1 + delta)]).outcomes.filter
        (fun o => o.terminalFor i))
        = [.matchedLoss i bid .implicit (t1 + delta)] ∧
      isPending
        (run s [.submit i bid T lossT, .sweep t1,
          .sweep (t1 + delta)]).state i = false ∧
      T + lossT ≤ t1 + delta ∧
      t1 + delta < T + lossT + delta := by
  have hkey0 : ∀ a ∈ s.ledger, hasKey i a = false := by
    intro a ha
    cases hk : hasKey i a
    · rfl
    · have h3 : isPending s i = true := List.any_eq_true.mpr ⟨a, ha, hk⟩
      rw [hnp] at h3
      cases h3
  have ha : s.ledger.any (hasKey i) = false := hnp
  have hstep1 : doAuction s i bid T lossT
      = ⟨⟨s.ledger ++ [⟨i, bid, T, T + lossT⟩], s.winHistory⟩, [], []⟩ := by
    simp [doAuction, Ledger.insert, ha]
  have hq1no : ¬ ((T + lossT) ≤ t1) := by omega
  have hs2 : (checkExpiredAuctions
        ⟨s.ledger ++ [⟨i, bid, T, T + lossT⟩], s.winHistory⟩ t1).state
      = ⟨s.ledger.filter (not ∘ fun e => decide (e.deadline ≤ t1))
          ++ [⟨i, bid, T, T + lossT⟩], s.winHistory⟩ := by
    simp only [checkExpiredAuctions, Ledger.sweepExpired,
      List.partition_eq_filter_filter]
    rw [List.filter_append]
    simp [hq1no]
  have ho2 : ((checkExpiredAuctions
        ⟨s.ledger ++ [⟨i, bid, T, T + lossT⟩], s.winHistory⟩
          t1).outcomes.filter (fun o => o.terminalFor i)) = [] := by
    apply List.Perm.eq_nil
    have hp := sweep_outcomes_filter
      (s.ledger ++ [(⟨i, bid, T, T + lossT⟩ : PendingAuction)])
      s.winHistory t1 i
    have hnilsrc : ((s.ledger ++ [(⟨i, bid, T, T + lossT⟩ : PendingAuction)]).filter
        (fun e => hasKey i e && decide (e.deadline ≤ t1))) = [] := by
      rw [List.filter_eq_nil_iff]
      intro a hamem
      rcases List.mem_append.mp hamem with hL | hR
      · simp [hkey0 a hL]
      · rcases List.mem_singleton.mp hR with rfl
        simp [hasKey, hq1no]
    rw [hnilsrc] at hp
    simpa using hp
  have ho3 : ((checkExpiredAuctions
        ⟨s.ledger.filter (not ∘ fun e => decide (e.deadline ≤ t1))
            ++ [⟨i, bid, T, T + lossT⟩], s.winHistory⟩
          (t1 + delta)).outcomes.filter (fun o => o.terminalFor i))
      = [.matchedLoss i bid .implicit (t1 + delta)] := by
    have hp := sweep_outcomes_filter
      (s.ledger.filter (not ∘ fun e => decide (e.deadline ≤ t1))
        ++ [(⟨i, bid, T, T + lossT⟩ : PendingAuction)])
      s.winHistory (t1 + delta) i
    have hsrc : ((s.ledger.filter (not ∘ fun e => decide (e.deadline ≤ t1))
        ++ [(⟨i, bid, T, T + lossT⟩ : PendingAuction)]).filter
        (fun e => hasKey i e && decide (e.deadline ≤ t1 + delta)))
        = [(⟨i, bid, T, T + lossT⟩ : PendingAuction)] := by
      rw [List.filter_append]
      have hfirst : (s.ledger.filter
          (not ∘ fun e => decide (e.deadline ≤ t1))).filter
          (fun e => hasKey i e && decide (e.deadline ≤ t1 + delta)) = [] := by
        rw [List.filter_eq_nil_iff]
        intro a hamem
        have hmem : a ∈ s.ledger := (List.mem_filter.mp hamem).1
        simp [hkey0 a hmem]
      rw [hfirst]
      simp [hasKey, h2]
    rw [hsrc] at hp
    exact List.perm_singleton.mp hp
  refine ⟨?_, ?_, by omega, by omega⟩
  · simp only [run, step, hstep1]
    rw [hs2]
    simp [List.filter_append, ho2, ho3]
  · simp only [run, step, hstep1]
    rw [hs2]
    apply isPending_after_sweep
    intro a hamem hai
    rcases List.mem_append.mp hamem with hL | hR
    · have hmem : a ∈ s.ledger := (List.mem_filter.mp hL).1
      have hk := hkey0 a hmem
      exact absurd ((hasKey_iff i a).mpr hai) (by simp [hk])
    · rcases List.mem_singleton.mp hR
      simpa using h2

/-- Witness for C3: a concrete auction submitted at `T = 0` with timeout 5,
swept at 4 (before the deadline) and at 7 (after it, interval 3), resolves
exactly once as an implicit loss stamped 7, inside the window `[5, 8)`. -/
theorem implicit_loss_exact_window_witness :
    isPending initState ⟨1, 1⟩ = false ∧ 4 < 0 + 5 ∧ 0 + 5 ≤ 4 + 3 ∧
      (((run initState [.submit ⟨1, 1⟩ ⟨10, 2, 0⟩ 0 5, .sweep 4,
            .sweep (4 + 3)]).outcomes.filter
          (fun o => o.terminalFor ⟨1, 1⟩))
          = [.matchedLoss ⟨1, 1⟩ ⟨10, 2, 0⟩ .implicit (4 + 3)] ∧
        isPending
          (run initState [.submit ⟨1, 1⟩ ⟨10, 2, 0⟩ 0 5, .sweep 4,
            .sweep (4 + 3)]).state ⟨1, 1⟩ = false ∧
        0 + 5 ≤ 4 + 3 ∧
        4 + 3 < 0 + 5 + 3) :=
  ⟨by decide, by decide, by decide,
    implicit_loss_exact_window initState ⟨1, 1⟩ ⟨10, 2, 0⟩ 0 5 4 3
      (by decide) (by decide) (by decide)⟩

end PostAuction

